import Mathlib

/-!
Shallow embedding of the atomic ring buffer (`src/ring_buf.h`, `src/ring_buf.c`).

The C code is a bounded SPSC ring buffer: a header holding `capacity`,
`max_alloc_size` and two monotonically increasing `uint64_t` indices
`head` (consumer) and `tail` (producer), followed by a flexible array of
16-byte cells.  Each cell holds an `int32_t size` field and an 8-byte
union of `void *data` / `int64_t idata`.

We model the sequential (single-threaded interleaving) semantics:
`uint64_t` arithmetic is `Nat` modulo `2^64`, `size_t` values are `Nat`
below `2^64`, `int64_t`/`int32_t` values are `Int` in the corresponding
two's-complement ranges, and the union storage of a cell is its raw
64-bit word.  C pointers that are merely passed through (the `void *data`
payload) are modelled by their 64-bit value; nullable pointer parameters
are modelled as `Option` (with `none` = NULL), carrying the pointed-to
value.  Calling a function that dereferences a NULL pointer has no
defined result; such calls are modelled by an `Option`-valued result
that is `none` exactly when the C execution hits the NULL dereference.
-/

/-- `2^64`, the modulus of `uint64_t` / `size_t` arithmetic. -/
def U64 : Nat := 2 ^ 64

/-- `uint64_t` subtraction `x - y` (wrapping), for `x, y < 2^64`. -/
def u64sub (x y : Nat) : Nat := (x + U64 - y % U64) % U64

/-- Status code `RB_OK` from `ring_buf.h`. -/
def RB_OK : Int := 0

/-- Status code `RB_FULL` from `ring_buf.h`. -/
def RB_FULL : Int := -1

/-- Status code `RB_EMPTY` from `ring_buf.h`. -/
def RB_EMPTY : Int := -2

/-- Status code `RB_PARAM_ERROR` from `ring_buf.h`. -/
def RB_PARAM_ERROR : Int := -4

/-- Conversion of a `size_t` value to `int32_t` (store into the cell's
`size` field in `rb_push_ptr`): truncate to 32 bits, reinterpret as
two's complement. -/
def sizeToInt32 (s : Nat) : Int :=
  if s % 2 ^ 32 < 2 ^ 31 then ((s % 2 ^ 32 : Nat) : Int)
  else ((s % 2 ^ 32 : Nat) : Int) - 2 ^ 32

/-- Conversion of an `int32_t` value to `size_t` (read of the cell's
`size` field in `rb_pull_ptr`): sign-extend to 64 bits. -/
def int32ToSizeT (v : Int) : Nat := (v % (U64 : Int)).toNat

/-- Store of an `int64_t` into the cell's 8-byte union word
(`d->cells[index].idata = idata`). -/
def int64ToWord (v : Int) : Nat := (v % (U64 : Int)).toNat

/-- Read of the cell's 8-byte union word as an `int64_t`
(`*idata = d->cells[index].idata`). -/
def wordToInt64 (w : Nat) : Int :=
  if w < 2 ^ 63 then (w : Int) else (w : Int) - U64

/-- One cell (`struct ring_buf_cell_struct`): the `int32_t size` field and
the raw 64-bit word of the `data`/`idata` union. -/
structure Cell where
  size : Int
  word : Nat
deriving DecidableEq

/-- The ring buffer control block plus cell array (`ring_buf_t`).  The
cell array is modelled as a total function from masked indices to cells;
the code only ever accesses indices below `capacity` (via the bitmask). -/
structure RingBuf where
  capacity : Nat
  max_alloc_size : Nat
  head : Nat
  tail : Nat
  cells : Nat → Cell

/-- Construction errors, following the branch structure of
`rb_alloc_init` (both map to `NULL` in C; the branches are distinct). -/
inductive ConstructionError where
  | InvalidCapacity
  | AllocationTooLarge
deriving DecidableEq

/-- `sizeof(cell_t)`: 4-byte `int32_t` plus 8-byte union, padded to the
declared 16-byte alignment. -/
def sizeof_cell : Nat := 16

/-- `sizeof(ring_buf_t)` on a 64-bit target: four `uint64_t` fields. -/
def sizeof_ring_buf : Nat := 32

/-- The zero-initialized buffer produced by `rb_alloc_init`'s `memset`
and field initialization. -/
def freshRB (num_cells max_alloc_size : Nat) : RingBuf :=
  { capacity := num_cells
    max_alloc_size := max_alloc_size
    head := 0
    tail := 0
    cells := fun _ => { size := 0, word := 0 } }

/-- `rb_alloc_init(num_cells, max_alloc_size)`.  The power-of-two check
is `(num_cells & (num_cells - 1)) != 0` in `size_t` arithmetic; the
total size is `num_cells * sizeof(cell_t) + sizeof(ring_buf_t)`, also in
`size_t` arithmetic.  Allocation itself is modelled as succeeding. -/
def rb_alloc_init (num_cells max_alloc_size : Nat) :
    Except ConstructionError RingBuf :=
  if num_cells &&& u64sub num_cells 1 ≠ 0 then
    .error .InvalidCapacity
  else
    let total_memory := (num_cells * sizeof_cell + sizeof_ring_buf) % U64
    if total_memory > max_alloc_size then
      .error .AllocationTooLarge
    else
      .ok (freshRB num_cells max_alloc_size)

/-- The full test shared by `rb_push_ptr` and `rb_push_int`:
`((tail + 1) & (capacity - 1)) == (head & (capacity - 1))`. -/
def rbFull (rb : RingBuf) : Prop :=
  ((rb.tail + 1) % U64) &&& u64sub rb.capacity 1
    = rb.head &&& u64sub rb.capacity 1

instance (rb : RingBuf) : Decidable (rbFull rb) := by
  unfold rbFull; infer_instance

/-- Body of `rb_push_ptr` after the NULL-handle guard: returns the
status code and the updated buffer. -/
def rb_push_ptr_core (rb : RingBuf) (data : Nat) (size : Nat) :
    Int × RingBuf :=
  if rbFull rb then
    (RB_FULL, rb)
  else
    let index := rb.tail &&& u64sub rb.capacity 1
    let rb1 := { rb with
      cells := Function.update rb.cells index
        { size := sizeToInt32 size, word := data % U64 } }
    (RB_OK, { rb1 with tail := (rb.tail + 1) % U64 })

/-- `rb_push_ptr(d, data, size)` with a nullable handle. -/
def rb_push_ptr (d : Option RingBuf) (data : Nat) (size : Nat) :
    Int × Option RingBuf :=
  match d with
  | none => (RB_PARAM_ERROR, none)
  | some rb =>
    let r := rb_push_ptr_core rb data size
    (r.1, some r.2)

/-- Body of `rb_push_int` after the NULL-handle guard.  Only the union
word of the cell is written (`d->cells[index].idata = idata`); the
`size` field of the cell is left as it was. -/
def rb_push_int_core (rb : RingBuf) (idata : Int) : Int × RingBuf :=
  if rbFull rb then
    (RB_FULL, rb)
  else
    let index := rb.tail &&& u64sub rb.capacity 1
    let rb1 := { rb with
      cells := Function.update rb.cells index
        { size := (rb.cells index).size, word := int64ToWord idata } }
    (RB_OK, { rb1 with tail := (rb.tail + 1) % U64 })

/-- `rb_push_int(d, idata)` with a nullable handle. -/
def rb_push_int (d : Option RingBuf) (idata : Int) : Int × Option RingBuf :=
  match d with
  | none => (RB_PARAM_ERROR, none)
  | some rb =>
    let r := rb_push_int_core rb idata
    (r.1, some r.2)

/-- Body of `rb_pull_int` after the guard, given the buffer and the value
the output pointer points to on entry (which the code never reads):
returns the status, the updated buffer, and the final pointed-to value. -/
def rb_pull_int_core (rb : RingBuf) (pv : Int) : Int × RingBuf × Int :=
  if rb.head = rb.tail then
    (RB_EMPTY, rb, pv)
  else
    let index := rb.head &&& u64sub rb.capacity 1
    (RB_OK, { rb with head := (rb.head + 1) % U64 },
      wordToInt64 (rb.cells index).word)

/-- `rb_pull_int(d, idata)`: the guard is `if (!d || !idata)`; the
pointed-to value of `idata` is not examined. -/
def rb_pull_int (d : Option RingBuf) (idata : Option Int) :
    Int × Option RingBuf × Option Int :=
  match d with
  | none => (RB_PARAM_ERROR, none, idata)
  | some rb =>
    match idata with
    | none => (RB_PARAM_ERROR, some rb, none)
    | some pv =>
      let r := rb_pull_int_core rb pv
      (r.1, some r.2.1, some r.2.2)

/-- Body of `rb_pull_ptr` after the guard: returns the status, the
updated buffer, and — on success — the `(data, size)` pair read from the
cell (`size` read back out of the `int32_t` field into a `size_t`). -/
def rb_pull_ptr_core (rb : RingBuf) : Int × RingBuf × Option (Nat × Nat) :=
  if rb.head = rb.tail then
    (RB_EMPTY, rb, none)
  else
    let index := rb.head &&& u64sub rb.capacity 1
    let c := rb.cells index
    (RB_OK, { rb with head := (rb.head + 1) % U64 },
      some (c.word, int32ToSizeT c.size))

/-- `rb_pull_ptr(d, data, size)`: the guard is
`if (!d || !data || *data || *size)`, evaluated left to right with
short-circuiting.  `data` and `size` are nullable pointers carrying
their pointed-to values; the result is `none` exactly when the guard
dereferences a NULL `size` pointer (the guard never tests `size` for
NULL), and otherwise `some (status, buffer, data pointee, size pointee)`
after the call. -/
def rb_pull_ptr (d : Option RingBuf) (data : Option Nat) (size : Option Nat) :
    Option (Int × Option RingBuf × Option Nat × Option Nat) :=
  match d with
  | none => some (RB_PARAM_ERROR, none, data, size)
  | some rb =>
    match data with
    | none => some (RB_PARAM_ERROR, some rb, none, size)
    | some dv =>
      if dv ≠ 0 then some (RB_PARAM_ERROR, some rb, data, size)
      else
        match size with
        | none => none
        | some sv =>
          if sv ≠ 0 then some (RB_PARAM_ERROR, some rb, data, size)
          else
            match rb_pull_ptr_core rb with
            | (st, rb1, none) => some (st, some rb1, some dv, some sv)
            | (st, rb1, some ws) => some (st, some rb1, some ws.1, some ws.2)

/-- Run `rb_push_int` on a (non-NULL) buffer once per list element,
collecting the status codes and the final buffer. -/
def pushIntList (rb : RingBuf) (vs : List Int) : List Int × RingBuf :=
  match vs with
  | [] => ([], rb)
  | v :: rest =>
    let r := rb_push_int_core rb v
    let r2 := pushIntList r.2 rest
    (r.1 :: r2.1, r2.2)

/-- Run `rb_pull_int` on a (non-NULL) buffer `n` times with a zeroed
output variable each time, collecting the `(status, *idata)` pairs and
the final buffer. -/
def pullIntList (rb : RingBuf) (n : Nat) : List (Int × Int) × RingBuf :=
  match n with
  | 0 => ([], rb)
  | n + 1 =>
    let r := rb_pull_int_core rb 0
    let r2 := pullIntList r.2.1 n
    ((r.1, r.2.2) :: r2.1, r2.2)

/-- A sequential operation on the buffer, for reachability: each
constructor is one call of a data-plane entry point (pulls performed
with zeroed output variables). -/
inductive RbOp where
  | pushInt (v : Int)
  | pushPtr (data : Nat) (size : Nat)
  | pullInt
  | pullPtr

/-- The buffer state after one operation. -/
def applyOp (rb : RingBuf) (op : RbOp) : RingBuf :=
  match op with
  | .pushInt v => (rb_push_int_core rb v).2
  | .pushPtr data size => (rb_push_ptr_core rb data size).2
  | .pullInt => (rb_pull_int_core rb 0).2.1
  | .pullPtr => (rb_pull_ptr_core rb).2.1

/-- The buffer state after a sequence of operations. -/
def runOps (rb : RingBuf) (ops : List RbOp) : RingBuf :=
  ops.foldl applyOp rb

/-- The unsigned (modular) difference `tail - head`: the occupancy of
the buffer. -/
def rbDiff (rb : RingBuf) : Nat := u64sub rb.tail rb.head

/-- Ghost-counter invariant: the indices of `rb` are the 64-bit images
of total push/pull counters `T` and `H` with `H ≤ T` and occupancy
`T - H` at most `C - 1`. -/
def GhostInv (C : Nat) (rb : RingBuf) : Prop :=
  rb.capacity = C ∧
    ∃ H T : Nat, H ≤ T ∧ T - H ≤ C - 1 ∧ rb.head = H % U64 ∧ rb.tail = T % U64

/-- The condition under which the claim says `rb_pull_ptr` reports a
parameter error: absent handle, absent data pointer, or an output
parameter whose pointed-to value is non-zero on entry. -/
def pullPtrParamCond (d : Option RingBuf) (data size : Option Nat) : Prop :=
  d = none ∨ data = none ∨ (∃ v, data = some v ∧ v ≠ 0) ∨
    (∃ v, size = some v ∧ v ≠ 0)

example : rb_alloc_init 4 1024 = .ok (freshRB 4 1024) := rfl

example : rb_alloc_init 3 1024 = .error .InvalidCapacity := rfl

example : rb_alloc_init 0 1024 = .ok (freshRB 0 1024) := rfl

example : rb_alloc_init 4096 16 = .error .AllocationTooLarge := rfl

example :
    (pushIntList (freshRB 4 100) [10, 20, 30, 40, 50]).1
      = [RB_OK, RB_OK, RB_OK, RB_FULL, RB_FULL] := by decide

example :
    (pullIntList (pushIntList (freshRB 4 100) [10, 20, 30]).2 4).1
      = [(RB_OK, 10), (RB_OK, 20), (RB_OK, 30), (RB_EMPTY, 0)] := by decide

lemma two_pow_lt_U64 {k : Nat} (hk : k < 64) : 2 ^ k < U64 := by
  have h : (2 : Nat) ^ k < 2 ^ 64 := Nat.pow_lt_pow_right (by norm_num) hk
  simpa [U64] using h

lemma one_le_two_pow_k {k : Nat} : 1 ≤ 2 ^ k := Nat.one_le_two_pow

lemma u64sub_one_pow {k : Nat} (hk : k < 64) : u64sub (2 ^ k) 1 = 2 ^ k - 1 := by
  have h1 : 1 ≤ 2 ^ k := Nat.one_le_two_pow
  have h2 : 2 ^ k < U64 := two_pow_lt_U64 hk
  have hU : 0 < U64 := by norm_num [U64]
  have h3 : 1 % U64 = 1 := Nat.mod_eq_of_lt (by norm_num [U64])
  unfold u64sub
  rw [h3]
  have h4 : 2 ^ k + U64 - 1 = (2 ^ k - 1) + U64 := by omega
  rw [h4, Nat.add_mod_right, Nat.mod_eq_of_lt (by omega)]

lemma mask_pow {k : Nat} (hk : k < 64) (x : Nat) :
    x &&& u64sub (2 ^ k) 1 = x % 2 ^ k := by
  rw [u64sub_one_pow hk, Nat.and_pow_two_sub_one_eq_mod]

lemma mod_U64_mod_pow {k : Nat} (hk : k ≤ 64) (x : Nat) :
    x % U64 % 2 ^ k = x % 2 ^ k := by
  show x % 2 ^ 64 % 2 ^ k = x % 2 ^ k
  exact Nat.mod_mod_of_dvd x (pow_dvd_pow 2 hk)

lemma mod_U64_add_one (x : Nat) : (x % U64 + 1) % U64 = (x + 1) % U64 :=
  Nat.mod_add_mod x U64 1

lemma u64sub_mod_mod (H T : Nat) (hHT : H ≤ T) (hlt : T - H < U64) :
    u64sub (T % U64) (H % U64) = T - H := by
  have hU : 0 < U64 := by norm_num [U64]
  have ha : H % U64 < U64 := Nat.mod_lt _ hU
  unfold u64sub
  rw [Nat.mod_mod_of_dvd _ dvd_rfl]
  have h1 : T % U64 + U64 - H % U64 = T % U64 + (U64 - H % U64) := by omega
  rw [h1, Nat.mod_add_mod]
  obtain ⟨q, hq⟩ : ∃ q, H = U64 * q + H % U64 := ⟨H / U64, (Nat.div_add_mod H U64).symm⟩
  have hmul : U64 * (q + 1) = U64 * q + U64 := by ring
  have h2 : T + (U64 - H % U64) = U64 * (q + 1) + (T - H) := by
    rw [hmul]; omega
  rw [h2, Nat.mul_add_mod, Nat.mod_eq_of_lt hlt]

lemma rb_alloc_init_ok {n m : Nat} {s : RingBuf} (h : rb_alloc_init n m = .ok s) :
    s = freshRB n m := by
  unfold rb_alloc_init at h
  by_cases h1 : n &&& u64sub n 1 ≠ 0
  · simp [h1] at h
  · by_cases h2 : (n * sizeof_cell + sizeof_ring_buf) % U64 > m
    · simp [h1, h2] at h
    · simp [h1, h2] at h
      exact h.symm

lemma ghost_fresh {k : Nat} (M : Nat) : GhostInv (2 ^ k) (freshRB (2 ^ k) M) := by
  refine ⟨rfl, 0, 0, le_refl 0, by omega, ?_, ?_⟩ <;> simp [freshRB]

lemma ghost_push_shape {k : Nat} (hk : k < 64) {rb : RingBuf}
    (h : GhostInv (2 ^ k) rb) (hnf : ¬ rbFull rb) (c2 : Nat → Cell) :
    GhostInv (2 ^ k) { rb with cells := c2, tail := (rb.tail + 1) % U64 } := by
  obtain ⟨hcap, H, T, hHT, hocc, hH, hT⟩ := h
  have hkle : k ≤ 64 := le_of_lt hk
  have hfull2 : ¬ ((T + 1) % 2 ^ k = H % 2 ^ k) := by
    intro hEq
    apply hnf
    unfold rbFull
    rw [hcap, mask_pow hk, mask_pow hk, hT, hH, mod_U64_add_one,
      mod_U64_mod_pow hkle, mod_U64_mod_pow hkle]
    exact hEq
  have h1le : 1 ≤ 2 ^ k := Nat.one_le_two_pow
  have hlt : T - H < 2 ^ k - 1 := by
    rcases Nat.lt_or_ge (T - H) (2 ^ k - 1) with h1 | h1
    · exact h1
    · exfalso
      apply hfull2
      have hTH : T + 1 = H + 2 ^ k := by omega
      rw [hTH, Nat.add_mod_right]
  refine ⟨hcap, H, T + 1, by omega, by omega, hH, ?_⟩
  rw [hT, mod_U64_add_one]

lemma ghost_pull_shape {k : Nat} {rb : RingBuf}
    (h : GhostInv (2 ^ k) rb) (hne : rb.head ≠ rb.tail) :
    GhostInv (2 ^ k) { rb with head := (rb.head + 1) % U64 } := by
  obtain ⟨hcap, H, T, hHT, hocc, hH, hT⟩ := h
  have hHT2 : H < T := by
    rcases Nat.lt_or_ge H T with h1 | h1
    · exact h1
    · exfalso
      apply hne
      have : H = T := by omega
      rw [hH, hT, this]
  refine ⟨hcap, H + 1, T, by omega, by omega, ?_, hT⟩
  rw [hH, mod_U64_add_one]

lemma ghost_applyOp {k : Nat} (hk : k < 64) {rb : RingBuf}
    (h : GhostInv (2 ^ k) rb) (op : RbOp) :
    GhostInv (2 ^ k) (applyOp rb op) := by
  cases op with
  | pushInt v =>
    by_cases hf : rbFull rb
    · simpa [applyOp, rb_push_int_core, hf] using h
    · simpa [applyOp, rb_push_int_core, hf] using
        ghost_push_shape hk h hf _
  | pushPtr data size =>
    by_cases hf : rbFull rb
    · simpa [applyOp, rb_push_ptr_core, hf] using h
    · simpa [applyOp, rb_push_ptr_core, hf] using
        ghost_push_shape hk h hf _
  | pullInt =>
    by_cases he : rb.head = rb.tail
    · simpa [applyOp, rb_pull_int_core, he] using h
    · simpa [applyOp, rb_pull_int_core, he] using ghost_pull_shape h he
  | pullPtr =>
    by_cases he : rb.head = rb.tail
    · simpa [applyOp, rb_pull_ptr_core, he] using h
    · simpa [applyOp, rb_pull_ptr_core, he] using ghost_pull_shape h he

lemma ghost_runOps {k : Nat} (hk : k < 64) {rb : RingBuf}
    (h : GhostInv (2 ^ k) rb) (ops : List RbOp) :
    GhostInv (2 ^ k) (runOps rb ops) := by
  induction ops generalizing rb with
  | nil => exact h
  | cons op rest ih =>
    have h1 : runOps rb (op :: rest) = runOps (applyOp rb op) rest := rfl
    rw [h1]
    exact ih (ghost_applyOp hk h op)


lemma not_full_below {k : Nat} (hk : k < 64) {rb : RingBuf} {t : Nat}
    (hcap : rb.capacity = 2 ^ k) (hhead : rb.head = 0) (htail : rb.tail = t)
    (ht : t + 1 < 2 ^ k) : ¬ rbFull rb := by
  unfold rbFull
  rw [hcap, mask_pow hk, mask_pow hk, hhead, htail,
    mod_U64_mod_pow (le_of_lt hk), Nat.zero_mod, Nat.mod_eq_of_lt ht]
  omega

lemma pushIntList_cons (rb : RingBuf) (v : Int) (rest : List Int) :
    pushIntList rb (v :: rest) =
      ((rb_push_int_core rb v).1 :: (pushIntList (rb_push_int_core rb v).2 rest).1,
        (pushIntList (rb_push_int_core rb v).2 rest).2) := rfl

lemma pushIntList_run {k : Nat} (hk : k < 64) :
    ∀ (vs : List Int) (rb : RingBuf) (t : Nat),
      rb.capacity = 2 ^ k → rb.head = 0 → rb.tail = t →
      t + vs.length < 2 ^ k →
      (pushIntList rb vs).1 = List.replicate vs.length RB_OK ∧
      (pushIntList rb vs).2.capacity = 2 ^ k ∧
      (pushIntList rb vs).2.head = 0 ∧
      (pushIntList rb vs).2.tail = t + vs.length ∧
      (∀ i, i < t → (pushIntList rb vs).2.cells i = rb.cells i) ∧
      (∀ j, j < vs.length →
        ((pushIntList rb vs).2.cells (t + j)).word = int64ToWord (vs.getD j 0)) := by
  intro vs
  induction vs with
  | nil =>
    intro rb t hcap hhead htail hlen
    refine ⟨rfl, hcap, hhead, ?_, ?_, ?_⟩
    · simpa using htail
    · intro i _
      rfl
    · intro j hj
      simp at hj
  | cons v rest ih =>
    intro rb t hcap hhead htail hlen
    have h2 : 2 ^ k < U64 := two_pow_lt_U64 hk
    have hlenc : t + (rest.length + 1) < 2 ^ k := by
      simpa [List.length_cons] using hlen
    have hlen1 : t + 1 < 2 ^ k := by omega
    have hnf : ¬ rbFull rb := not_full_below hk hcap hhead htail hlen1
    have hidx : rb.tail &&& u64sub rb.capacity 1 = t := by
      rw [hcap, mask_pow hk, htail, Nat.mod_eq_of_lt (by omega)]
    have hstep : rb_push_int_core rb v =
        (RB_OK, { rb with
          cells := Function.update rb.cells t
            { size := (rb.cells t).size, word := int64ToWord v },
          tail := (rb.tail + 1) % U64 }) := by
      rw [rb_push_int_core, if_neg hnf, hidx]
    have hst1 : (rb_push_int_core rb v).1 = RB_OK := by rw [hstep]
    have hcap2 : (rb_push_int_core rb v).2.capacity = 2 ^ k := by
      rw [hstep]; exact hcap
    have hhead2 : (rb_push_int_core rb v).2.head = 0 := by
      rw [hstep]; exact hhead
    have htail2 : (rb_push_int_core rb v).2.tail = t + 1 := by
      rw [hstep]
      show (rb.tail + 1) % U64 = t + 1
      rw [htail]
      exact Nat.mod_eq_of_lt (by omega)
    have hcells2 : ∀ i, (rb_push_int_core rb v).2.cells i =
        Function.update rb.cells t
          { size := (rb.cells t).size, word := int64ToWord v } i := by
      intro i
      rw [hstep]
    obtain ⟨ihst, ihcap, ihhead, ihtail, ihold, ihnew⟩ :=
      ih (rb_push_int_core rb v).2 (t + 1) hcap2 hhead2 htail2 (by omega)
    simp only [pushIntList_cons]
    refine ⟨?_, ihcap, ihhead, ?_, ?_, ?_⟩
    · rw [hst1, ihst, List.length_cons, List.replicate_succ]
    · rw [ihtail, List.length_cons]
      omega
    · intro i hi
      rw [ihold i (by omega), hcells2 i]
      exact Function.update_noteq (by omega) _ _
    · intro j hj
      cases j with
      | zero =>
        have h0 := ihold t (by omega)
        rw [Nat.add_zero, h0, hcells2 t, Function.update_same]
        simp
      | succ j2 =>
        have hj2 : j2 < rest.length := by
          rw [List.length_cons] at hj
          omega
        have hn := ihnew j2 hj2
        have harith : t + (j2 + 1) = t + 1 + j2 := by omega
        rw [harith, hn, List.getD_cons_succ]

lemma pullIntList_cons (rb : RingBuf) (n : Nat) :
    pullIntList rb (n + 1) =
      (((rb_pull_int_core rb 0).1, (rb_pull_int_core rb 0).2.2) ::
        (pullIntList (rb_pull_int_core rb 0).2.1 n).1,
        (pullIntList (rb_pull_int_core rb 0).2.1 n).2) := rfl

lemma pullIntList_run {k : Nat} (hk : k < 64) :
    ∀ (n : Nat) (rb : RingBuf) (h : Nat),
      rb.capacity = 2 ^ k → rb.head = h → rb.tail < 2 ^ k → h + n ≤ rb.tail →
      (pullIntList rb n).1 =
        (List.range n).map
          (fun j => (RB_OK, wordToInt64 ((rb.cells (h + j)).word))) ∧
      (pullIntList rb n).2.capacity = 2 ^ k ∧
      (pullIntList rb n).2.head = h + n ∧
      (pullIntList rb n).2.tail = rb.tail ∧
      (pullIntList rb n).2.cells = rb.cells := by
  intro n
  induction n with
  | zero =>
    intro rb h hcap hhead htail hcnt
    exact ⟨rfl, hcap, by simpa using hhead, rfl, rfl⟩
  | succ n ih =>
    intro rb h hcap hhead htail hcnt
    have h2 : 2 ^ k < U64 := two_pow_lt_U64 hk
    have hne : rb.head ≠ rb.tail := by
      rw [hhead]
      omega
    have hidx : rb.head &&& u64sub rb.capacity 1 = h := by
      rw [hcap, mask_pow hk, hhead, Nat.mod_eq_of_lt (by omega)]
    have hstep : rb_pull_int_core rb 0 =
        (RB_OK, { rb with head := (rb.head + 1) % U64 },
          wordToInt64 ((rb.cells h).word)) := by
      rw [rb_pull_int_core, if_neg hne, hidx]
    have hst1 : (rb_pull_int_core rb 0).1 = RB_OK := by rw [hstep]
    have hval : (rb_pull_int_core rb 0).2.2 = wordToInt64 ((rb.cells h).word) := by
      rw [hstep]
    have hcap2 : (rb_pull_int_core rb 0).2.1.capacity = 2 ^ k := by
      rw [hstep]; exact hcap
    have hhead2 : (rb_pull_int_core rb 0).2.1.head = h + 1 := by
      rw [hstep]
      show (rb.head + 1) % U64 = h + 1
      rw [hhead]
      exact Nat.mod_eq_of_lt (by omega)
    have htail2 : (rb_pull_int_core rb 0).2.1.tail = rb.tail := by
      rw [hstep]
    have hcells2 : (rb_pull_int_core rb 0).2.1.cells = rb.cells := by
      rw [hstep]
    obtain ⟨ihst, ihcap, ihhead, ihtail, ihcells⟩ :=
      ih (rb_pull_int_core rb 0).2.1 (h + 1) hcap2 hhead2
        (by rw [htail2]; exact htail) (by rw [htail2]; omega)
    simp only [pullIntList_cons]
    refine ⟨?_, ihcap, by rw [ihhead]; omega, by rw [ihtail, htail2], by rw [ihcells, hcells2]⟩
    rw [hst1, hval, ihst, hcells2, List.range_succ_eq_map, List.map_cons, List.map_map]
    refine congrArg₂ _ (by rw [Nat.add_zero]) ?_
    apply List.map_congr_left
    intro j hj
    show (RB_OK, wordToInt64 ((rb.cells (h + 1 + j)).word)) = _
    have harith : h + 1 + j = h + (j + 1) := by omega
    rw [harith]
    rfl

lemma int64_roundtrip {v : Int} (h1 : -(2 ^ 63) ≤ v) (h2 : v < 2 ^ 63) :
    wordToInt64 (int64ToWord v) = v := by
  unfold wordToInt64 int64ToWord U64
  split_ifs <;> omega

lemma pushIntList_append (rb : RingBuf) (xs ys : List Int) :
    pushIntList rb (xs ++ ys) =
      ((pushIntList rb xs).1 ++ (pushIntList (pushIntList rb xs).2 ys).1,
        (pushIntList (pushIntList rb xs).2 ys).2) := by
  induction xs generalizing rb with
  | nil => rfl
  | cons x rest ih =>
    simp only [List.cons_append, pushIntList_cons, ih, List.append_eq]

/-- C1: after N successful integer pushes of distinct in-range values on a
freshly created buffer of power-of-two capacity C with N < C, N integer
pulls all return `RB_OK` and yield exactly the pushed values in order. -/
theorem C1_fifo_push_pull (k M : Nat) (hk : k < 64) (s0 : RingBuf)
    (hcreate : rb_alloc_init (2 ^ k) M = Except.ok s0)
    (vs : List Int) (hlen : vs.length < 2 ^ k) (hnodup : vs.Nodup)
    (hrange : ∀ v ∈ vs, -(2 ^ 63) ≤ v ∧ v < 2 ^ 63) :
    (pushIntList s0 vs).1 = List.replicate vs.length RB_OK ∧
    (pullIntList (pushIntList s0 vs).2 vs.length).1 =
      vs.map (fun v => (RB_OK, v)) := by
  have hfresh := rb_alloc_init_ok hcreate
  subst hfresh
  obtain ⟨pst, pcap, phead, ptail, _, pnew⟩ :=
    pushIntList_run hk vs (freshRB (2 ^ k) M) 0 rfl rfl rfl (by omega)
  refine ⟨pst, ?_⟩
  obtain ⟨qst, _, _, _, _⟩ :=
    pullIntList_run hk vs.length (pushIntList (freshRB (2 ^ k) M) vs).2 0
      pcap phead (by omega) (by omega)
  rw [qst]
  have hcongr : ∀ j ∈ List.range vs.length,
      (RB_OK,
        wordToInt64 (((pushIntList (freshRB (2 ^ k) M) vs).2.cells (0 + j)).word))
        = (RB_OK, vs.getD j 0) := by
    intro j hj
    rw [List.mem_range] at hj
    rw [pnew j hj]
    have hmem : vs.getD j 0 ∈ vs := by
      rw [List.getD_eq_getElem vs 0 hj]
      exact List.getElem_mem hj
    obtain ⟨ha, hb⟩ := hrange _ hmem
    rw [int64_roundtrip ha hb]
  rw [List.map_congr_left hcongr]
  apply List.ext_getElem
  · simp
  · intro i h1 h2
    have hi : i < vs.length := by simpa using h1
    simp only [List.getElem_map, List.getElem_range]
    rw [List.getD_eq_getElem vs 0 hi]

/-- Witness for C1 at capacity 4 with values [1, 2, 3]. -/
theorem C1_fifo_push_pull_witness :
    (pushIntList (freshRB 4 1024) [1, 2, 3]).1 = List.replicate 3 RB_OK ∧
    (pullIntList (pushIntList (freshRB 4 1024) [1, 2, 3]).2 3).1 =
      [1, 2, 3].map (fun v => (RB_OK, v)) := by
  have h := C1_fifo_push_pull 2 1024 (by omega) (freshRB 4 1024) rfl
    [1, 2, 3] (by decide) (by decide) (by decide)
  exact h

/-- C2: on a freshly created buffer of power-of-two capacity C with no
intervening pulls, the first C-1 integer pushes return `RB_OK` and the
C-th returns `RB_FULL` (for C = 1 the very first push is `RB_FULL`). -/
theorem C2_accepts_capacity_minus_one (k M : Nat) (hk : k < 64) (s0 : RingBuf)
    (hcreate : rb_alloc_init (2 ^ k) M = Except.ok s0)
    (vs : List Int) (hlen : vs.length = 2 ^ k) :
    (pushIntList s0 vs).1 =
      List.replicate (2 ^ k - 1) RB_OK ++ [RB_FULL] := by
  have hfresh := rb_alloc_init_ok hcreate
  subst hfresh
  have h1le : 1 ≤ 2 ^ k := Nat.one_le_two_pow
  have h2 : 2 ^ k < U64 := two_pow_lt_U64 hk
  have htlen : (vs.take (2 ^ k - 1)).length = 2 ^ k - 1 := by
    rw [List.length_take, hlen]
    omega
  have hdlen : (vs.drop (2 ^ k - 1)).length = 1 := by
    rw [List.length_drop, hlen]
    omega
  obtain ⟨w, hw⟩ := List.length_eq_one.mp hdlen
  obtain ⟨pst, pcap, phead, ptail, _, _⟩ :=
    pushIntList_run hk (vs.take (2 ^ k - 1)) (freshRB (2 ^ k) M) 0 rfl rfl rfl
      (by omega)
  set s1 := (pushIntList (freshRB (2 ^ k) M) (vs.take (2 ^ k - 1))).2 with hs1
  have hful : rbFull s1 := by
    unfold rbFull
    rw [pcap, mask_pow hk, mask_pow hk, phead, ptail, htlen]
    have e1 : 0 + (2 ^ k - 1) + 1 = 2 ^ k := by omega
    rw [e1, Nat.mod_eq_of_lt h2, Nat.mod_self, Nat.zero_mod]
  have hcore : rb_push_int_core s1 w = (RB_FULL, s1) := by
    rw [rb_push_int_core, if_pos hful]
  have hlast : pushIntList s1 [w] = ([RB_FULL], s1) := by
    simp only [pushIntList_cons, hcore]
    rfl
  conv_lhs => rw [(List.take_append_drop (2 ^ k - 1) vs).symm, hw]
  rw [pushIntList_append, pst, htlen, ← hs1, hlast]

/-- Witness for C2 at capacity 4 with values [5, 6, 7, 8]. -/
theorem C2_accepts_capacity_minus_one_witness :
    (pushIntList (freshRB 4 1024) [5, 6, 7, 8]).1 =
      List.replicate 3 RB_OK ++ [RB_FULL] := by
  have h := C2_accepts_capacity_minus_one 2 1024 (by omega) (freshRB 4 1024) rfl
    [5, 6, 7, 8] (by decide)
  exact h

/-- C3: in every state reachable from a freshly created buffer of
power-of-two capacity C by a sequence of push/pull operations, the
unsigned modular difference `tail - head` is between 0 and C, never
equals C, and is in fact at most C - 1. -/
theorem C3_occupancy_invariant (k M : Nat) (hk : k < 64) (s0 : RingBuf)
    (hcreate : rb_alloc_init (2 ^ k) M = Except.ok s0) (ops : List RbOp) :
    rbDiff (runOps s0 ops) ≤ 2 ^ k ∧ rbDiff (runOps s0 ops) ≠ 2 ^ k ∧
      rbDiff (runOps s0 ops) ≤ 2 ^ k - 1 := by
  have hfresh := rb_alloc_init_ok hcreate
  subst hfresh
  have h0 : GhostInv (2 ^ k) (freshRB (2 ^ k) M) := ghost_fresh M
  obtain ⟨hcap, H, T, hHT, hocc, hH, hT⟩ := ghost_runOps hk h0 ops
  have h2 : 2 ^ k < U64 := two_pow_lt_U64 hk
  have hd : rbDiff (runOps (freshRB (2 ^ k) M) ops) = T - H := by
    unfold rbDiff
    rw [hH, hT]
    exact u64sub_mod_mod H T hHT (by omega)
  have h1le : 1 ≤ 2 ^ k := Nat.one_le_two_pow
  omega

/-- Witness for C3 at capacity 2 after one push and one pull. -/
theorem C3_occupancy_invariant_witness :
    rbDiff (runOps (freshRB 2 1024) [RbOp.pushInt 5, RbOp.pullInt]) ≤ 2 ∧
      rbDiff (runOps (freshRB 2 1024) [RbOp.pushInt 5, RbOp.pullInt]) ≠ 2 ∧
      rbDiff (runOps (freshRB 2 1024) [RbOp.pushInt 5, RbOp.pullInt]) ≤ 1 := by
  have h := C3_occupancy_invariant 1 1024 (by omega) (freshRB 2 1024) rfl
    [RbOp.pushInt 5, RbOp.pullInt]
  exact h

/-- C4 (code evaluation): the power-of-two check `n & (n-1) != 0` accepts
`num_slots = 0` (since `0 & (0-1) == 0`), so `create(0, 1024)` returns a
buffer even though 0 is not a power of two; the claim's other examples
behave as stated (3, 100, 4095 rejected; 1, 2, 4096 accepted). -/
theorem C4_create_accepts_zero_slots :
    rb_alloc_init 0 1024 = .ok (freshRB 0 1024) ∧
    rb_alloc_init 3 1024 = .error .InvalidCapacity ∧
    rb_alloc_init 100 4096 = .error .InvalidCapacity ∧
    rb_alloc_init 4095 (2 ^ 20) = .error .InvalidCapacity ∧
    rb_alloc_init 1 1024 = .ok (freshRB 1 1024) ∧
    rb_alloc_init 2 1024 = .ok (freshRB 2 1024) ∧
    rb_alloc_init 4096 (2 ^ 20) = .ok (freshRB 4096 (2 ^ 20)) :=
  ⟨rfl, rfl, rfl, rfl, rfl, rfl, rfl⟩

/-- C9 counterexample: `create(3, 16)` has total size 80 > 16 yet fails
with the capacity error, not `AllocationTooLarge`; and
`create(2^60, 1024)` succeeds although the mathematical total
`2^60 * 16 + 32` vastly exceeds 1024, because the `size_t` product
overflows to 32. -/
theorem C9_alloc_ceiling_counterexample :
    (rb_alloc_init 3 16 = .error .InvalidCapacity ∧
      ConstructionError.InvalidCapacity ≠ ConstructionError.AllocationTooLarge ∧
      3 * sizeof_cell + sizeof_ring_buf > 16) ∧
    (rb_alloc_init (2 ^ 60) 1024 = .ok (freshRB (2 ^ 60) 1024) ∧
      2 ^ 60 * sizeof_cell + sizeof_ring_buf > 1024) :=
  ⟨⟨rfl, by decide, by decide⟩, rfl, by decide⟩

/-- C9 (amended): for `num_slots` passing the power-of-two check,
creation fails with `AllocationTooLarge` exactly when the `size_t` total
`num_slots * 16 + 32` (mod 2^64) exceeds `max_alloc_size`; in particular
`create(4096, 16)` fails with it and `create(4096, 1 <<< 20)` succeeds. -/
theorem C9_alloc_ceiling (n m : Nat) (hp : n &&& u64sub n 1 = 0) :
    (rb_alloc_init n m = .error .AllocationTooLarge ↔
      (n * sizeof_cell + sizeof_ring_buf) % U64 > m) ∧
    rb_alloc_init 4096 16 = .error .AllocationTooLarge ∧
    rb_alloc_init 4096 (2 ^ 20) = .ok (freshRB 4096 (2 ^ 20)) := by
  refine ⟨?_, rfl, rfl⟩
  constructor
  · intro h
    by_contra hgt
    simp [rb_alloc_init, hp, hgt] at h
  · intro h
    simp [rb_alloc_init, hp, h]

/-- Witness for C9 (amended) at `num_slots = 8`, `max_alloc_size = 0`. -/
theorem C9_alloc_ceiling_witness :
    ((rb_alloc_init 8 0 = .error .AllocationTooLarge ↔
      (8 * sizeof_cell + sizeof_ring_buf) % U64 > 0) ∧
      rb_alloc_init 4096 16 = .error .AllocationTooLarge ∧
      rb_alloc_init 4096 (2 ^ 20) = .ok (freshRB 4096 (2 ^ 20))) :=
  C9_alloc_ceiling 8 0 (by decide)

/-- C10: on a call with a valid handle, a zeroed data output and a NULL
size pointer, the guard of `rb_pull_ptr` never tests the size pointer for
NULL but reads through it, so the call does not return `RB_PARAM_ERROR`
from the guard — it has no defined result at all. -/
theorem C10_pull_ptr_null_size_undefined (rb : RingBuf) :
    rb_pull_ptr (some rb) (some 0) none = none := rfl

lemma rb_pull_int_core_status (rb : RingBuf) (pv : Int) :
    (rb_pull_int_core rb pv).1 = RB_EMPTY ∨ (rb_pull_int_core rb pv).1 = RB_OK := by
  rw [rb_pull_int_core]
  split
  · exact Or.inl rfl
  · exact Or.inr rfl

/-- C6 counterexample: on a buffer holding one element, `rb_pull_int`
with an output variable whose value on entry is 9 (non-zero) returns
`RB_OK` and the element — not `RB_PARAM_ERROR` as the claim predicts. -/
theorem C6_pull_int_guard_counterexample :
    (rb_pull_int (some (rb_push_int_core (freshRB 2 100) 7).2) (some 9)).1
      = RB_OK ∧
    RB_OK ≠ RB_PARAM_ERROR ∧
    (rb_pull_int (some (rb_push_int_core (freshRB 2 100) 7).2) (some 9)).2.2
      = some 7 :=
  ⟨rfl, by decide, rfl⟩

/-- C6 (amended): `rb_pull_int` returns `RB_PARAM_ERROR` exactly when
the handle or the output pointer is NULL; unlike `rb_pull_ptr` it never
examines the pointed-to value, and in the error cases the buffer and the
pointee are left untouched. -/
theorem C6_pull_int_guard (d : Option RingBuf) (idata : Option Int) :
    ((rb_pull_int d idata).1 = RB_PARAM_ERROR ↔ d = none ∨ idata = none) ∧
    ((d = none ∨ idata = none) →
      rb_pull_int d idata = (RB_PARAM_ERROR, d, idata)) := by
  match d, idata with
  | none, idata =>
    exact ⟨by simp [rb_pull_int], fun _ => rfl⟩
  | some rb, none =>
    exact ⟨by simp [rb_pull_int], fun _ => rfl⟩
  | some rb, some pv =>
    have hred : (rb_pull_int (some rb) (some pv)).1 = (rb_pull_int_core rb pv).1 :=
      rfl
    constructor
    · rw [hred]
      constructor
      · intro h
        rcases rb_pull_int_core_status rb pv with h2 | h2 <;> rw [h2] at h <;>
          exact absurd h (by decide)
      · intro h
        rcases h with h | h <;> exact absurd h (by simp)
    · intro h
      rcases h with h | h <;> exact absurd h (by simp)

/-- C8: pushing (integer or blob, also repeatedly) into a full buffer
returns `RB_FULL` every time and leaves the entire state — indices,
capacity, allocation ceiling, and every cell — unchanged, so a pull from
that state (when an element is present) still returns `RB_OK` with the
oldest element, the cell at `head & (capacity - 1)`. -/
theorem C8_push_into_full_is_noop (rb : RingBuf) (v : Int) (data size : Nat)
    (vs : List Int) (hfull : rbFull rb) :
    rb_push_int_core rb v = (RB_FULL, rb) ∧
    rb_push_ptr_core rb data size = (RB_FULL, rb) ∧
    pushIntList rb vs = (List.replicate vs.length RB_FULL, rb) ∧
    (rb.head ≠ rb.tail →
      rb_pull_int_core rb 0 =
        (RB_OK, { rb with head := (rb.head + 1) % U64 },
          wordToInt64 ((rb.cells (rb.head &&& u64sub rb.capacity 1)).word)) ∧
      rb_pull_ptr_core rb =
        (RB_OK, { rb with head := (rb.head + 1) % U64 },
          some ((rb.cells (rb.head &&& u64sub rb.capacity 1)).word,
            int32ToSizeT (rb.cells (rb.head &&& u64sub rb.capacity 1)).size))) := by
  have h1 : rb_push_int_core rb v = (RB_FULL, rb) := by
    rw [rb_push_int_core, if_pos hfull]
  have h2 : rb_push_ptr_core rb data size = (RB_FULL, rb) := by
    rw [rb_push_ptr_core, if_pos hfull]
  refine ⟨h1, h2, ?_, ?_⟩
  · induction vs with
    | nil => rfl
    | cons w rest ih =>
      have h1w : rb_push_int_core rb w = (RB_FULL, rb) := by
        rw [rb_push_int_core, if_pos hfull]
      simp only [pushIntList_cons, h1w, List.length_cons, List.replicate_succ]
      rw [ih]
  · intro hne
    constructor
    · rw [rb_pull_int_core, if_neg hne]
    · rw [rb_pull_ptr_core, if_neg hne]

/-- Witness for C8 on a full capacity-2 buffer holding the element 7. -/
theorem C8_push_into_full_is_noop_witness :
    rb_push_int_core (rb_push_int_core (freshRB 2 100) 7).2 5 =
      (RB_FULL, (rb_push_int_core (freshRB 2 100) 7).2) ∧
    rb_push_ptr_core (rb_push_int_core (freshRB 2 100) 7).2 3 4 =
      (RB_FULL, (rb_push_int_core (freshRB 2 100) 7).2) ∧
    pushIntList (rb_push_int_core (freshRB 2 100) 7).2 [1, 2] =
      (List.replicate 2 RB_FULL, (rb_push_int_core (freshRB 2 100) 7).2) ∧
    rb_pull_int_core (rb_push_int_core (freshRB 2 100) 7).2 0 =
      (RB_OK,
        { (rb_push_int_core (freshRB 2 100) 7).2 with
          head := ((rb_push_int_core (freshRB 2 100) 7).2.head + 1) % U64 },
        wordToInt64 (((rb_push_int_core (freshRB 2 100) 7).2.cells
          ((rb_push_int_core (freshRB 2 100) 7).2.head &&&
            u64sub (rb_push_int_core (freshRB 2 100) 7).2.capacity 1)).word)) := by
  have h := C8_push_into_full_is_noop (rb_push_int_core (freshRB 2 100) 7).2
    5 3 4 [1, 2] (by decide)
  exact ⟨h.1, h.2.1, h.2.2.1, (h.2.2.2 (by decide)).1⟩

lemma rb_push_ptr_some (rb : RingBuf) (data size : Nat) :
    rb_push_ptr (some rb) data size =
      ((rb_push_ptr_core rb data size).1,
        some (rb_push_ptr_core rb data size).2) := rfl

lemma rb_pull_ptr_zeroed (rb : RingBuf) :
    rb_pull_ptr (some rb) (some 0) (some 0) =
      match rb_pull_ptr_core rb with
      | (st, rb1, none) => some (st, some rb1, some 0, some 0)
      | (st, rb1, some ws) => some (st, some rb1, some ws.1, some ws.2) := rfl

/-- C5 counterexample: pushing the pair (reference 5, size 2^32) onto a
fresh capacity-4 buffer and pulling it back with zeroed outputs yields
reference 5 but size 0, because the `size_t` size is stored into the
cell's `int32_t` field: 2^32 truncates to 0.  The claim's "identical
size, unmodified" fails at s = 2^32. -/
theorem C5_blob_roundtrip_counterexample :
    ((rb_pull_ptr (rb_push_ptr (some (freshRB 4 1024)) 5 (2 ^ 32)).2
        (some 0) (some 0)).map (fun q => (q.1, q.2.2.1, q.2.2.2))) =
      some (RB_OK, some 5, some 0) ∧ (2 ^ 32 : Nat) ≠ 0 :=
  ⟨rfl, by decide⟩

/-- C5 (amended): pushing (reference r, size s) onto an empty, non-full
buffer and pulling with zeroed outputs yields exactly the reference r
and the size `int32ToSizeT (sizeToInt32 s)` — s truncated to `int32_t`
and sign-extended back to `size_t` — which equals s whenever s < 2^31. -/
theorem C5_blob_roundtrip_amended (rb : RingBuf) (r s : Nat)
    (hempty : rb.head = rb.tail) (htl : rb.tail < U64)
    (hnf : ¬ rbFull rb) (hr : r < U64) :
    ((rb_pull_ptr (rb_push_ptr (some rb) r s).2 (some 0) (some 0)).map
      (fun q => (q.1, q.2.2.1, q.2.2.2))) =
      some (RB_OK, some r, some (int32ToSizeT (sizeToInt32 s))) ∧
    (s < 2 ^ 31 → int32ToSizeT (sizeToInt32 s) = s) := by
  constructor
  · have h1 : (rb_push_ptr (some rb) r s).2 = some (rb_push_ptr_core rb r s).2 :=
      rfl
    rw [h1]
    have hhead2 : (rb_push_ptr_core rb r s).2.head = rb.head := by
      rw [rb_push_ptr_core, if_neg hnf]
    have htail2 : (rb_push_ptr_core rb r s).2.tail = (rb.tail + 1) % U64 := by
      rw [rb_push_ptr_core, if_neg hnf]
    have hcap2 : (rb_push_ptr_core rb r s).2.capacity = rb.capacity := by
      rw [rb_push_ptr_core, if_neg hnf]
    have hcells2 : (rb_push_ptr_core rb r s).2.cells =
        Function.update rb.cells (rb.tail &&& u64sub rb.capacity 1)
          { size := sizeToInt32 s, word := r % U64 } := by
      rw [rb_push_ptr_core, if_neg hnf]
    have hU : 2 ≤ U64 := by norm_num [U64]
    have hne : (rb_push_ptr_core rb r s).2.head ≠ (rb_push_ptr_core rb r s).2.tail := by
      rw [hhead2, htail2, hempty]
      rcases Nat.lt_or_ge (rb.tail + 1) U64 with hlt | hge
      · rw [Nat.mod_eq_of_lt hlt]
        omega
      · have he : rb.tail + 1 = U64 := by omega
        rw [he, Nat.mod_self]
        omega
    have hpidx : (rb_push_ptr_core rb r s).2.head &&&
        u64sub (rb_push_ptr_core rb r s).2.capacity 1 =
        rb.tail &&& u64sub rb.capacity 1 := by
      rw [hhead2, hcap2, hempty]
    have hcell : (rb_push_ptr_core rb r s).2.cells
        ((rb_push_ptr_core rb r s).2.head &&&
          u64sub (rb_push_ptr_core rb r s).2.capacity 1) =
        { size := sizeToInt32 s, word := r % U64 } := by
      rw [hcells2, hpidx, Function.update_same]
    have hpull : rb_pull_ptr_core (rb_push_ptr_core rb r s).2 =
        (RB_OK,
          { (rb_push_ptr_core rb r s).2 with
            head := ((rb_push_ptr_core rb r s).2.head + 1) % U64 },
          some (r % U64, int32ToSizeT (sizeToInt32 s))) := by
      simp only [rb_pull_ptr_core, if_neg hne]
      rw [hcell]
    rw [rb_pull_ptr_zeroed, hpull]
    simp [Nat.mod_eq_of_lt hr]
  · intro hs
    unfold int32ToSizeT sizeToInt32 U64
    have h32 : s % 2 ^ 32 = s := Nat.mod_eq_of_lt (by omega)
    rw [h32, if_pos (by omega)]
    omega

/-- Witness for C5 (amended) on a fresh capacity-4 buffer with
reference 7 and size 3. -/
theorem C5_blob_roundtrip_amended_witness :
    ((rb_pull_ptr (rb_push_ptr (some (freshRB 4 1024)) 7 3).2
        (some 0) (some 0)).map (fun q => (q.1, q.2.2.1, q.2.2.2))) =
      some (RB_OK, some 7, some (int32ToSizeT (sizeToInt32 3))) ∧
    (3 < 2 ^ 31 → int32ToSizeT (sizeToInt32 3) = 3) :=
  C5_blob_roundtrip_amended (freshRB 4 1024) 7 3 rfl (by decide) (by decide)
    (by decide)

lemma rb_pull_ptr_core_status (rb : RingBuf) :
    (rb_pull_ptr_core rb).1 = RB_EMPTY ∨ (rb_pull_ptr_core rb).1 = RB_OK := by
  rw [rb_pull_ptr_core]
  split
  · exact Or.inl rfl
  · exact Or.inr rfl

lemma rb_pull_ptr_dv_ne (rb : RingBuf) (dv : Nat) (hdv : dv ≠ 0)
    (size : Option Nat) :
    rb_pull_ptr (some rb) (some dv) size =
      some (RB_PARAM_ERROR, some rb, some dv, size) := by
  simp [rb_pull_ptr, hdv]

lemma rb_pull_ptr_sv_ne (rb : RingBuf) (sv : Nat) (hsv : sv ≠ 0) :
    rb_pull_ptr (some rb) (some 0) (some sv) =
      some (RB_PARAM_ERROR, some rb, some 0, some sv) := by
  simp [rb_pull_ptr, hsv]

/-- C7: `rb_pull_ptr` returns `RB_PARAM_ERROR` exactly when the handle
is NULL, the data output pointer is NULL, or either output parameter
holds a non-zero value on entry; and whenever that condition holds the
call returns with the buffer and both pointees completely unchanged.
(A call outside this condition with a NULL size pointer has no defined
result at all, so it, too, does not return `RB_PARAM_ERROR`.) -/
theorem C7_pull_ptr_guard (d : Option RingBuf) (data size : Option Nat) :
    ((∃ q, rb_pull_ptr d data size = some q ∧ q.1 = RB_PARAM_ERROR) ↔
      pullPtrParamCond d data size) ∧
    (pullPtrParamCond d data size →
      rb_pull_ptr d data size = some (RB_PARAM_ERROR, d, data, size)) := by
  match d, data, size with
  | none, data, size =>
    exact ⟨⟨fun _ => Or.inl rfl, fun _ => ⟨_, rfl, rfl⟩⟩, fun _ => rfl⟩
  | some rb, none, size =>
    exact ⟨⟨fun _ => Or.inr (Or.inl rfl), fun _ => ⟨_, rfl, rfl⟩⟩, fun _ => rfl⟩
  | some rb, some dv, none =>
    by_cases hdv : dv = 0
    · subst hdv
      have hres : rb_pull_ptr (some rb) (some 0) none = none := rfl
      have hcond : ¬ pullPtrParamCond (some rb) (some 0) none := by
        simp [pullPtrParamCond]
      refine ⟨⟨?_, fun hc => absurd hc hcond⟩, fun hc => absurd hc hcond⟩
      rintro ⟨q, hq, _⟩
      rw [hres] at hq
      exact absurd hq (by simp)
    · have hres := rb_pull_ptr_dv_ne rb dv hdv none
      exact ⟨⟨fun _ => Or.inr (Or.inr (Or.inl ⟨dv, rfl, hdv⟩)),
        fun _ => ⟨_, hres, rfl⟩⟩, fun _ => hres⟩
  | some rb, some dv, some sv =>
    by_cases hdv : dv = 0
    · subst hdv
      by_cases hsv : sv = 0
      · subst hsv
        have hcond : ¬ pullPtrParamCond (some rb) (some 0) (some 0) := by
          simp [pullPtrParamCond]
        refine ⟨⟨?_, fun hc => absurd hc hcond⟩, fun hc => absurd hc hcond⟩
        rintro ⟨q, hq, hst⟩
        rw [rb_pull_ptr_zeroed] at hq
        have hstat := rb_pull_ptr_core_status rb
        rcases hc : rb_pull_ptr_core rb with ⟨st, rb1, out⟩
        rw [hc] at hq hstat
        have hstat2 : st = RB_EMPTY ∨ st = RB_OK := hstat
        cases out with
        | none =>
          have hq2 : (st, some rb1, some 0, some 0) =
              (q : Int × Option RingBuf × Option Nat × Option Nat) :=
            Option.some.inj hq
          have hq3 : st = RB_PARAM_ERROR := by
            rw [← hq2] at hst
            exact hst
          rcases hstat2 with h | h <;> rw [hq3] at h <;> exact absurd h (by decide)
        | some ws =>
          have hq2 : (st, some rb1, some ws.1, some ws.2) =
              (q : Int × Option RingBuf × Option Nat × Option Nat) :=
            Option.some.inj hq
          have hq3 : st = RB_PARAM_ERROR := by
            rw [← hq2] at hst
            exact hst
          rcases hstat2 with h | h <;> rw [hq3] at h <;> exact absurd h (by decide)
      · have hres := rb_pull_ptr_sv_ne rb sv hsv
        exact ⟨⟨fun _ => Or.inr (Or.inr (Or.inr ⟨sv, rfl, hsv⟩)),
          fun _ => ⟨_, hres, rfl⟩⟩, fun _ => hres⟩
    · have hres := rb_pull_ptr_dv_ne rb dv hdv (some sv)
      exact ⟨⟨fun _ => Or.inr (Or.inr (Or.inl ⟨dv, rfl, hdv⟩)),
        fun _ => ⟨_, hres, rfl⟩⟩, fun _ => hres⟩
